import Mathlib

/-!
Verification of the text-metrics core of `src/app.py`.

This file is a shallow embedding of the text-metrics computation engine of
the repository: the pure function `calculate_text_metrics` together with the
two descriptor classifiers `get_reading_ease_descriptor` and
`get_readability_descriptor`.

Modelling conventions:
* Python strings are modelled as `List Char`; Python `float` arithmetic on the
  ratio fields is modelled exactly over `ℚ`, with `round(x, n)` modelled as
  round-half-to-even at `n` decimal digits (Python's documented rounding mode).
* `str.split()` (split on runs of whitespace, dropping empty pieces),
  `str.split('.')` and `str.split("\n\n")` (keeping empty pieces), and
  `str.strip()` are modelled character-exactly on the ASCII whitespace set.
* `str.isalpha`, `str.isalnum` and `str.lower` are modelled on the ASCII
  range (the inputs of every concrete claim are ASCII).
* The external `textstat` primitives: `syllable_count` is modelled after the
  library's implementation (lower-case the text, delete the characters matched
  by `[^\w\s]`, split on whitespace, and sum a per-word count), with the
  per-word hyphenation count left as an arbitrary parameter `sylCore`;
  `flesch_kincaid_grade` and `flesch_reading_ease` are arbitrary score
  functions `fkGrade`, `freEase`.  Theorems quantify over these parameters,
  so they hold for every instantiation of the external library.
-/

/-- The ASCII whitespace characters recognised by Python's `str.split()` and
`str.strip()` (space, tab, newline, carriage return, vertical tab, form feed). -/
def isPySpace (c : Char) : Bool :=
  c == ' ' || c == '\t' || c == '\n' || c == '\r' || c == '\x0b' || c == '\x0c'

/-- Prepend a character to the first piece of a split (used while splitting). -/
def consHead (c : Char) : List (List Char) → List (List Char)
  | [] => [[c]]
  | h :: t => (c :: h) :: t

/-- Split a character list at every character satisfying `p`, keeping empty
pieces.  `splitP (· == '.') s` models Python's `s.split('.')`. -/
def splitP (p : Char → Bool) : List Char → List (List Char)
  | [] => [[]]
  | c :: cs => if p c then [] :: splitP p cs else consHead c (splitP p cs)

/-- Python's `s.split()`: split on runs of whitespace and drop empty pieces,
equivalently split at every whitespace character and keep only the non-empty
pieces. -/
def splitWs (s : List Char) : List (List Char) :=
  (splitP isPySpace s).filter (fun w => !w.isEmpty)

/-- Python's `s.strip()`: remove leading and trailing whitespace. -/
def pyStrip (s : List Char) : List Char :=
  ((s.dropWhile isPySpace).reverse.dropWhile isPySpace).reverse

/-- Python's `s.split("\n\n")`: split at every non-overlapping occurrence of
the two-character separator, scanning left to right, keeping empty pieces. -/
def splitNlNl : List Char → List (List Char)
  | [] => [[]]
  | [c] => [[c]]
  | c :: d :: cs =>
    if c = '\n' ∧ d = '\n' then [] :: splitNlNl cs
    else consHead c (splitNlNl (d :: cs))

/-- ASCII model of Python's `str.lower` on one character. -/
def pyLowerChar (c : Char) : Char :=
  match c with
  | 'A' => 'a' | 'B' => 'b' | 'C' => 'c' | 'D' => 'd' | 'E' => 'e' | 'F' => 'f'
  | 'G' => 'g' | 'H' => 'h' | 'I' => 'i' | 'J' => 'j' | 'K' => 'k' | 'L' => 'l'
  | 'M' => 'm' | 'N' => 'n' | 'O' => 'o' | 'P' => 'p' | 'Q' => 'q' | 'R' => 'r'
  | 'S' => 's' | 'T' => 't' | 'U' => 'u' | 'V' => 'v' | 'W' => 'w' | 'X' => 'x'
  | 'Y' => 'y' | 'Z' => 'z'
  | d => d

/-- Python's `w.lower()` on a word. -/
def pyLower (w : List Char) : List Char := w.map pyLowerChar

/-- The characters kept by `textstat`'s `remove_punctuation`
(`re.sub(r"[^\w\s]", "", text)`): word characters and whitespace. -/
def keepChar (c : Char) : Bool := c.isAlphanum || c == '_' || isPySpace c

/-- Model of `textstat`'s text normalisation before syllable counting: lower-case the
text, then delete every character that is neither a word character nor
whitespace. -/
def cleanText (s : List Char) : List Char :=
  (s.map pyLowerChar).filter keepChar

/-- Model of `textstat.syllable_count`: normalise the text, return `0` if
nothing is left, otherwise split on whitespace and sum `max 1 (sylCore w)`
over the pieces, where `sylCore` abstracts the hyphenation-based per-word
count (`word_hyphenated.count("-") + 1`). -/
def syllable_count (sylCore : List Char → Nat) (s : List Char) : Nat :=
  if (cleanText s).isEmpty then 0
  else ((splitWs (cleanText s)).map (fun w => max 1 (sylCore w))).sum

/-- Number of whitespace-delimited tokens of a sentence (`len(s.split())`). -/
def numTokens (s : List Char) : Nat := (splitWs s).length

/-- Python's `max(first :: rest, key=numTokens)`: fold keeping the current
maximum, replacing it only when a strictly larger key appears, so the first
element attaining the maximum wins. -/
def maxSentence (first : List Char) (rest : List (List Char)) : List Char :=
  rest.foldl (fun best x => if numTokens best < numTokens x then x else best) first

/-- One step of the word-frequency loop
(`word_frequency[wl] = word_frequency.get(wl, 0) + 1`): increment the count of
`w` in place if present (Python dicts keep insertion order), else append
`(w, 1)`. -/
def bumpWord : List (List Char × Nat) → List Char → List (List Char × Nat)
  | [], w => [(w, 1)]
  | (x, n) :: rest, w =>
    if x = w then (x, n + 1) :: rest else (x, n) :: bumpWord rest w

/-- The word-frequency loop of `calculate_text_metrics`, lowering each word
before counting it. -/
def buildFreq (acc : List (List Char × Nat)) : List (List Char) → List (List Char × Nat)
  | [] => acc
  | w :: ws => buildFreq (bumpWord acc (pyLower w)) ws

/-- The insertion-order word-frequency table (`word_frequency` in the code). -/
def word_frequency (words : List (List Char)) : List (List Char × Nat) :=
  buildFreq [] words

/-- Stable insertion of a pair into a count-descending list: walk past every
entry whose count is `≥` the new count, so among equal counts the
earlier-inserted entry stays first. -/
def insertByCount (p : List Char × Nat) : List (List Char × Nat) → List (List Char × Nat)
  | [] => [p]
  | q :: rest => if q.2 < p.2 then p :: q :: rest else q :: insertByCount p rest

/-- Stable insertion sort, processing the input in order. -/
def sortDescAux (acc : List (List Char × Nat)) : List (List Char × Nat) → List (List Char × Nat)
  | [] => acc
  | p :: ps => sortDescAux (insertByCount p acc) ps

/-- Model of `sorted(word_frequency.items(), key=lambda x: x[1], reverse=True)`:
a stable sort by occurrence count, descending. -/
def sortByCountDesc (l : List (List Char × Nat)) : List (List Char × Nat) :=
  sortDescAux [] l

/-- Round half to even (Python's `round` on exact values). -/
def roundHalfEven (q : ℚ) : ℤ :=
  if q - ⌊q⌋ < 1/2 then ⌊q⌋
  else if 1/2 < q - ⌊q⌋ then ⌊q⌋ + 1
  else if ⌊q⌋ % 2 = 0 then ⌊q⌋ else ⌊q⌋ + 1

/-- Python's `round(q, n)` modelled exactly over `ℚ`. -/
def pyRound (q : ℚ) (n : Nat) : ℚ :=
  (roundHalfEven (q * (10 : ℚ) ^ n) : ℚ) / (10 : ℚ) ^ n

/-- Embedding of `get_reading_ease_descriptor` from `src/app.py`. -/
def get_reading_ease_descriptor (reading_ease : ℚ) : String :=
  if reading_ease ≥ 90 then
    "Very Easy (Easily understood by an 11-year-old, simple language)"
  else if reading_ease ≥ 80 then
    "Easy (Conversational English, good for younger audiences)"
  else if reading_ease ≥ 70 then
    "Fairly Easy (Standard reading level, easily understood by teenagers)"
  else if reading_ease ≥ 60 then
    "Standard (Plain English, suitable for most readers)"
  else if reading_ease ≥ 50 then
    "Fairly Difficult (Somewhat challenging, college-level text)"
  else if reading_ease ≥ 30 then
    "Difficult (Best for academics and professionals, complex text)"
  else
    "Very Difficult (Extremely complex, suitable for specialists)"

/-- Embedding of `get_readability_descriptor` from `src/app.py`. -/
def get_readability_descriptor (fk_grade : ℚ) : String :=
  if fk_grade ≤ 5 then
    "Very Easy (5th grade or below, easily understood by an 11-year-old)"
  else if fk_grade ≤ 8 then
    "Easy (6th-8th grade, fairly easy to read)"
  else if fk_grade ≤ 10 then
    "Standard (9th-10th grade, moderately challenging)"
  else if fk_grade ≤ 12 then
    "Fairly Difficult (11th-12th grade, college level)"
  else if fk_grade ≤ 15 then
    "Difficult (College level, requires advanced reading skills)"
  else
    "Very Difficult (Postgraduate level, highly academic)"

/-- Embeds `words = text.strip().split()`. -/
def pyWords (text : List Char) : List (List Char) := splitWs (pyStrip text)

/-- Embeds the line `sentences = [s.strip() for s in text.split(chr(46)) if s.strip()]`. -/
def pySentences (text : List Char) : List (List Char) :=
  ((splitP (fun c => c == '.') text).map pyStrip).filter (fun s => !s.isEmpty)

/-- Embeds the paragraphs list comprehension of the code (split on a blank line, keep pieces whose strip is non-empty). -/
def pyParagraphs (text : List Char) : List (List Char) :=
  (splitNlNl text).filter (fun p => !(pyStrip p).isEmpty)

/-- The record returned by `calculate_text_metrics` (the `metrics` dict). -/
structure TextMetrics where
  letterCount : Nat
  sentenceCount : Nat
  wordCount : Nat
  uniqueWordCount : Nat
  totalSyllables : Nat
  avgSyllablesPerWord : ℚ
  wordsThreeSyllables : Nat
  percWordsThreeSyllables : ℚ
  longestSentence : List Char
  paragraphCount : Nat
  avgSpeakingTime : ℚ
  avgReadingTime : ℚ
  avgWritingTime : ℚ
  avgWordsPerSentence : ℚ
  avgWordsPerParagraph : ℚ
  avgSentencesPerParagraph : ℚ
  avgCharactersPerWord : ℚ
  wordsMoreThan4Syllables : Nat
  percWordsMoreThan4Syllables : ℚ
  wordsMoreThan12Letters : Nat
  percWordsMoreThan12Letters : ℚ
  topWords : List (List Char × Nat)
  fleschKincaid : ℚ
  readabilityDescriptor : String
  readingEase : ℚ
  readingEaseDescriptor : String
  readingTime : ℚ
  averageWordLength : ℚ

/-- Embedding of `calculate_text_metrics` from `src/app.py`, line by line, parameterised by
the three external `textstat` primitives. -/
def calculate_text_metrics (sylCore : List Char → Nat)
    (fkGrade freEase : List Char → ℚ) (text : List Char) : TextMetrics :=
  let words := pyWords text
  let sentences := pySentences text
  let letter_count := text.countP Char.isAlpha
  let word_count := words.length
  let sentence_count := if sentences.isEmpty then 1 else sentences.length
  let avg_word_length :=
    if 0 < word_count then pyRound ((letter_count : ℚ) / (word_count : ℚ)) 1 else 0
  let unique_word_count := ((words.map pyLower).dedup).length
  let total_syllables := syllable_count sylCore text
  let avg_syllables_per_word :=
    if 0 < word_count then pyRound ((total_syllables : ℚ) / (word_count : ℚ)) 1 else 0
  let words_three_syllables := words.countP (fun w => syllable_count sylCore w == 3)
  let perc_words_three_syllables :=
    if 0 < word_count then
      pyRound ((words_three_syllables : ℚ) / (word_count : ℚ) * 100) 1 else 0
  let longest_sentence :=
    match sentences with
    | [] => []
    | s :: rest => maxSentence s rest
  let paragraphs := pyParagraphs text
  let paragraph_count := if paragraphs.isEmpty then 1 else paragraphs.length
  let avg_speaking_time :=
    if 0 < word_count then pyRound ((word_count : ℚ) / 150) 1 else 0
  let avg_reading_time :=
    if 0 < word_count then pyRound ((word_count : ℚ) / 200) 1 else 0
  let avg_writing_time :=
    if 0 < word_count then pyRound ((word_count : ℚ) / 40) 1 else 0
  let avg_words_per_sentence :=
    if 0 < sentence_count then pyRound ((word_count : ℚ) / (sentence_count : ℚ)) 1 else 0
  let avg_words_per_paragraph :=
    if 0 < paragraph_count then pyRound ((word_count : ℚ) / (paragraph_count : ℚ)) 1 else 0
  let avg_sentences_per_paragraph :=
    if 0 < paragraph_count then pyRound ((sentence_count : ℚ) / (paragraph_count : ℚ)) 1 else 0
  let avg_characters_per_word :=
    if 0 < word_count then pyRound ((letter_count : ℚ) / (word_count : ℚ)) 1 else 0
  let words_more_than_4_syllables := words.countP (fun w => 4 < syllable_count sylCore w)
  let perc_words_more_than_4_syllables :=
    if 0 < word_count then
      pyRound ((words_more_than_4_syllables : ℚ) / (word_count : ℚ) * 100) 1 else 0
  let words_more_than_12_letters := words.countP (fun w => 12 < w.length)
  let perc_words_more_than_12_letters :=
    if 0 < word_count then
      pyRound ((words_more_than_12_letters : ℚ) / (word_count : ℚ) * 100) 1 else 0
  let top_words := (sortByCountDesc (word_frequency words)).take 5
  let flesch_kincaid := fkGrade text
  let reading_ease := freEase text
  let reading_time_minutes := pyRound ((word_count : ℚ) / 200) 2
  { letterCount := letter_count
    sentenceCount := sentence_count
    wordCount := word_count
    uniqueWordCount := unique_word_count
    totalSyllables := total_syllables
    avgSyllablesPerWord := avg_syllables_per_word
    wordsThreeSyllables := words_three_syllables
    percWordsThreeSyllables := perc_words_three_syllables
    longestSentence := longest_sentence
    paragraphCount := paragraph_count
    avgSpeakingTime := avg_speaking_time
    avgReadingTime := avg_reading_time
    avgWritingTime := avg_writing_time
    avgWordsPerSentence := avg_words_per_sentence
    avgWordsPerParagraph := avg_words_per_paragraph
    avgSentencesPerParagraph := avg_sentences_per_paragraph
    avgCharactersPerWord := avg_characters_per_word
    wordsMoreThan4Syllables := words_more_than_4_syllables
    percWordsMoreThan4Syllables := perc_words_more_than_4_syllables
    wordsMoreThan12Letters := words_more_than_12_letters
    percWordsMoreThan12Letters := perc_words_more_than_12_letters
    topWords := top_words
    fleschKincaid := flesch_kincaid
    readabilityDescriptor := get_readability_descriptor flesch_kincaid
    readingEase := reading_ease
    readingEaseDescriptor := get_reading_ease_descriptor reading_ease
    readingTime := reading_time_minutes
    averageWordLength := avg_word_length }

/-- A concrete syllable-core instantiation used for witnesses and
counterexamples: one syllable per cleaned word. -/
def sylOne : List Char → Nat := fun _ => 1

/-- A concrete readability-score instantiation used for witnesses and
counterexamples. -/
def scoreZero : List Char → ℚ := fun _ => 0

/-! ## Rounding lemmas -/

lemma roundHalfEven_nonneg {q : ℚ} (h : 0 ≤ q) : 0 ≤ roundHalfEven q := by
  unfold roundHalfEven
  have hf : (0 : ℤ) ≤ ⌊q⌋ := Int.floor_nonneg.mpr h
  split_ifs <;> omega

lemma roundHalfEven_le {q : ℚ} {z : ℤ} (h : q ≤ z) : roundHalfEven q ≤ z := by
  unfold roundHalfEven
  have hfz : ⌊q⌋ ≤ z := by
    have := Int.floor_le_floor h
    rwa [Int.floor_intCast] at this
  have hfq : (⌊q⌋ : ℚ) ≤ q := Int.floor_le q
  split_ifs with h1 h2 h3
  · exact hfz
  · have hlt : (⌊q⌋ : ℚ) < (z : ℚ) := by linarith
    have : ⌊q⌋ < z := by exact_mod_cast hlt
    omega
  · exact hfz
  · have hge : (1 : ℚ) / 2 ≤ q - ⌊q⌋ := le_of_not_lt h1
    have hlt : (⌊q⌋ : ℚ) < (z : ℚ) := by linarith
    have : ⌊q⌋ < z := by exact_mod_cast hlt
    omega

lemma roundHalfEven_intCast (z : ℤ) : roundHalfEven (z : ℚ) = z := by
  unfold roundHalfEven
  rw [Int.floor_intCast]
  norm_num

lemma roundHalfEven_zero : roundHalfEven 0 = 0 := by
  unfold roundHalfEven
  norm_num

lemma pyRound_nonneg {q : ℚ} (h : 0 ≤ q) (n : Nat) : 0 ≤ pyRound q n := by
  unfold pyRound
  have h1 : (0 : ℤ) ≤ roundHalfEven (q * 10 ^ n) := roundHalfEven_nonneg (by positivity)
  apply div_nonneg
  · exact_mod_cast h1
  · positivity

lemma pyRound_le {q : ℚ} {N : ℕ} (h : q ≤ N) (n : Nat) : pyRound q n ≤ N := by
  unfold pyRound
  have hpow : (0 : ℚ) < 10 ^ n := by positivity
  have h1 : roundHalfEven (q * 10 ^ n) ≤ (N : ℤ) * 10 ^ n := by
    apply roundHalfEven_le
    push_cast
    exact mul_le_mul_of_nonneg_right h hpow.le
  rw [div_le_iff₀ hpow]
  exact_mod_cast h1

lemma pyRound_zero (n : Nat) : pyRound 0 n = 0 := by
  unfold pyRound
  rw [zero_mul, roundHalfEven_zero]
  norm_num

/-! ## Basic lemmas about the splitting primitives -/

lemma splitP_ne_nil (p : Char → Bool) (s : List Char) : splitP p s ≠ [] := by
  induction s with
  | nil => simp [splitP]
  | cons c cs ih =>
    simp only [splitP]
    split
    · simp
    · cases h : splitP p cs with
      | nil => exact absurd h ih
      | cons a b => simp [consHead, h]

lemma consHead_of_ne_nil (c : Char) {L : List (List Char)} (h : L ≠ []) :
    ∃ a b, L = a :: b ∧ consHead c L = (c :: a) :: b := by
  cases L with
  | nil => exact absurd rfl h
  | cons a b => exact ⟨a, b, rfl, rfl⟩

/-- Every character of every piece of `splitP p s` is a character of `s` that
does not satisfy `p` (pieces lie strictly between separators). -/
lemma mem_of_mem_splitP {p : Char → Bool} {s : List Char} {w : List Char}
    (hw : w ∈ splitP p s) {c : Char} (hc : c ∈ w) : c ∈ s ∧ p c = false := by
  induction s generalizing w with
  | nil =>
    simp [splitP] at hw
    subst hw
    simp at hc
  | cons d ds ih =>
    simp only [splitP] at hw
    by_cases hd : p d
    · rw [if_pos hd] at hw
      rcases List.mem_cons.mp hw with h | h
      · subst h; simp at hc
      · have h2 := ih h hc
        exact ⟨List.mem_cons_of_mem _ h2.1, h2.2⟩
    · rw [if_neg hd] at hw
      obtain ⟨a, b, hab, hch⟩ := consHead_of_ne_nil d (splitP_ne_nil p ds)
      rw [hch] at hw
      rcases List.mem_cons.mp hw with h | h
      · subst h
        rcases List.mem_cons.mp hc with h' | h'
        · subst h'
          exact ⟨List.mem_cons_self _ _, Bool.eq_false_iff.mpr hd⟩
        · have ha : a ∈ splitP p ds := by rw [hab]; exact List.mem_cons_self _ _
          have h2 := ih ha h'
          exact ⟨List.mem_cons_of_mem _ h2.1, h2.2⟩
      · have hw2 : w ∈ splitP p ds := by rw [hab]; exact List.mem_cons_of_mem _ h
        have h2 := ih hw2 hc
        exact ⟨List.mem_cons_of_mem _ h2.1, h2.2⟩

lemma splitNlNl_ne_nil (s : List Char) : splitNlNl s ≠ [] := by
  induction s using splitNlNl.induct with
  | case1 => simp [splitNlNl]
  | case2 d => simp [splitNlNl]
  | case3 d e cs hde ih =>
    simp [splitNlNl, if_pos hde]
  | case4 d e cs hde ih =>
    simp only [splitNlNl, if_neg hde]
    cases h : splitNlNl (e :: cs) with
    | nil => exact absurd h ih
    | cons a b => simp [consHead, h]

/-- Every character of every piece of `splitNlNl s` is a character of `s`. -/
lemma mem_of_mem_splitNlNl {s : List Char} {w : List Char}
    (hw : w ∈ splitNlNl s) {c : Char} (hc : c ∈ w) : c ∈ s := by
  induction s using splitNlNl.induct generalizing w with
  | case1 =>
    simp [splitNlNl] at hw
    subst hw
    simp at hc
  | case2 d =>
    simp [splitNlNl] at hw
    subst hw
    simp at hc
    simp [hc]
  | case3 d e cs hde ih =>
    rw [splitNlNl, if_pos hde] at hw
    rcases List.mem_cons.mp hw with h | h
    · subst h; simp at hc
    · have h2 := ih h hc
      simp [h2]
  | case4 d e cs hde ih =>
    rw [splitNlNl, if_neg hde] at hw
    obtain ⟨a, b, hab, hch⟩ := consHead_of_ne_nil d (splitNlNl_ne_nil (e :: cs))
    rw [hch] at hw
    rcases List.mem_cons.mp hw with h | h
    · subst h
      rcases List.mem_cons.mp hc with h' | h'
      · subst h'; exact List.mem_cons_self _ _
      · have ha : a ∈ splitNlNl (e :: cs) := by rw [hab]; exact List.mem_cons_self _ _
        exact List.mem_cons_of_mem _ (ih ha h')
    · have hwmem : w ∈ splitNlNl (e :: cs) := by rw [hab]; exact List.mem_cons_of_mem _ h
      exact List.mem_cons_of_mem _ (ih hwmem hc)

/-! ## Whitespace facts -/

lemma isPySpace_cases {c : Char} (h : isPySpace c = true) :
    c = ' ' ∨ c = '\t' ∨ c = '\n' ∨ c = '\r' ∨ c = '\x0b' ∨ c = '\x0c' := by
  simp [isPySpace] at h
  tauto

lemma pyLowerChar_space {c : Char} (h : isPySpace c = true) : pyLowerChar c = c := by
  rcases isPySpace_cases h with h | h | h | h | h | h <;> subst h <;> decide

lemma isAlpha_of_space {c : Char} (h : isPySpace c = true) : c.isAlpha = false := by
  rcases isPySpace_cases h with h | h | h | h | h | h <;> subst h <;> decide

lemma keepChar_space {c : Char} (h : isPySpace c = true) : keepChar c = true := by
  simp [keepChar, h]

lemma splitWs_eq_nil_of_space {s : List Char} (h : ∀ c ∈ s, isPySpace c = true) :
    splitWs s = [] := by
  rw [List.eq_nil_iff_forall_not_mem]
  intro w hw
  rw [splitWs, List.mem_filter] at hw
  obtain ⟨hw1, hw2⟩ := hw
  cases w with
  | nil => simp at hw2
  | cons c cs =>
    have h2 := mem_of_mem_splitP hw1 (List.mem_cons_self c cs)
    have hs := h c h2.1
    rw [h2.2] at hs
    exact Bool.false_ne_true hs

lemma pyStrip_eq_nil_of_space {s : List Char} (h : ∀ c ∈ s, isPySpace c = true) :
    pyStrip s = [] := by
  unfold pyStrip
  rw [List.dropWhile_eq_nil_iff.mpr h]
  simp

/-! ## Evaluation lemmas for the degenerate inputs -/

lemma pyWords_nil : pyWords [] = [] := rfl

lemma pySentences_nil : pySentences [] = [] := rfl

lemma pyParagraphs_nil : pyParagraphs [] = [] := rfl

/-- C1: `get_reading_ease_descriptor` returns exactly one of seven band
labels, checked in descending order with inclusive lower bounds
90, 80, 70, 60, 50, 30, defaulting to the "Very Difficult" band, and
`get_readability_descriptor` returns exactly one of six band labels checked
with inclusive upper bounds 5, 8, 10, 12, 15, defaulting to "Very
Difficult"; the boundary values behave as claimed:
`get_reading_ease_descriptor 90` is the "Very Easy" label,
`get_reading_ease_descriptor 89.9` the "Easy" label,
`get_readability_descriptor 5` the "Very Easy" label and
`get_readability_descriptor 5.1` the "Easy" label. -/
theorem c1_descriptor_bands :
    (∀ s : ℚ, get_reading_ease_descriptor s ∈
      ["Very Easy (Easily understood by an 11-year-old, simple language)",
       "Easy (Conversational English, good for younger audiences)",
       "Fairly Easy (Standard reading level, easily understood by teenagers)",
       "Standard (Plain English, suitable for most readers)",
       "Fairly Difficult (Somewhat challenging, college-level text)",
       "Difficult (Best for academics and professionals, complex text)",
       "Very Difficult (Extremely complex, suitable for specialists)"])
    ∧ (∀ g : ℚ, get_readability_descriptor g ∈
      ["Very Easy (5th grade or below, easily understood by an 11-year-old)",
       "Easy (6th-8th grade, fairly easy to read)",
       "Standard (9th-10th grade, moderately challenging)",
       "Fairly Difficult (11th-12th grade, college level)",
       "Difficult (College level, requires advanced reading skills)",
       "Very Difficult (Postgraduate level, highly academic)"])
    ∧ (["Very Easy (Easily understood by an 11-year-old, simple language)",
        "Easy (Conversational English, good for younger audiences)",
        "Fairly Easy (Standard reading level, easily understood by teenagers)",
        "Standard (Plain English, suitable for most readers)",
        "Fairly Difficult (Somewhat challenging, college-level text)",
        "Difficult (Best for academics and professionals, complex text)",
        "Very Difficult (Extremely complex, suitable for specialists)"] :
        List String).Pairwise (· ≠ ·)
    ∧ (["Very Easy (5th grade or below, easily understood by an 11-year-old)",
        "Easy (6th-8th grade, fairly easy to read)",
        "Standard (9th-10th grade, moderately challenging)",
        "Fairly Difficult (11th-12th grade, college level)",
        "Difficult (College level, requires advanced reading skills)",
        "Very Difficult (Postgraduate level, highly academic)"] :
        List String).Pairwise (· ≠ ·)
    ∧ (∀ s : ℚ, 90 ≤ s → get_reading_ease_descriptor s =
        "Very Easy (Easily understood by an 11-year-old, simple language)")
    ∧ (∀ s : ℚ, 80 ≤ s → s < 90 → get_reading_ease_descriptor s =
        "Easy (Conversational English, good for younger audiences)")
    ∧ (∀ s : ℚ, 70 ≤ s → s < 80 → get_reading_ease_descriptor s =
        "Fairly Easy (Standard reading level, easily understood by teenagers)")
    ∧ (∀ s : ℚ, 60 ≤ s → s < 70 → get_reading_ease_descriptor s =
        "Standard (Plain English, suitable for most readers)")
    ∧ (∀ s : ℚ, 50 ≤ s → s < 60 → get_reading_ease_descriptor s =
        "Fairly Difficult (Somewhat challenging, college-level text)")
    ∧ (∀ s : ℚ, 30 ≤ s → s < 50 → get_reading_ease_descriptor s =
        "Difficult (Best for academics and professionals, complex text)")
    ∧ (∀ s : ℚ, s < 30 → get_reading_ease_descriptor s =
        "Very Difficult (Extremely complex, suitable for specialists)")
    ∧ (∀ g : ℚ, g ≤ 5 → get_readability_descriptor g =
        "Very Easy (5th grade or below, easily understood by an 11-year-old)")
    ∧ (∀ g : ℚ, 5 < g → g ≤ 8 → get_readability_descriptor g =
        "Easy (6th-8th grade, fairly easy to read)")
    ∧ (∀ g : ℚ, 8 < g → g ≤ 10 → get_readability_descriptor g =
        "Standard (9th-10th grade, moderately challenging)")
    ∧ (∀ g : ℚ, 10 < g → g ≤ 12 → get_readability_descriptor g =
        "Fairly Difficult (11th-12th grade, college level)")
    ∧ (∀ g : ℚ, 12 < g → g ≤ 15 → get_readability_descriptor g =
        "Difficult (College level, requires advanced reading skills)")
    ∧ (∀ g : ℚ, 15 < g → get_readability_descriptor g =
        "Very Difficult (Postgraduate level, highly academic)")
    ∧ get_reading_ease_descriptor 90 =
        "Very Easy (Easily understood by an 11-year-old, simple language)"
    ∧ get_reading_ease_descriptor (899/10) =
        "Easy (Conversational English, good for younger audiences)"
    ∧ get_readability_descriptor 5 =
        "Very Easy (5th grade or below, easily understood by an 11-year-old)"
    ∧ get_readability_descriptor (51/10) =
        "Easy (6th-8th grade, fairly easy to read)" := by
  have e1 : ∀ s : ℚ, 90 ≤ s → get_reading_ease_descriptor s =
      "Very Easy (Easily understood by an 11-year-old, simple language)" := by
    intro s h
    unfold get_reading_ease_descriptor
    rw [if_pos h]
  have e2 : ∀ s : ℚ, 80 ≤ s → s < 90 → get_reading_ease_descriptor s =
      "Easy (Conversational English, good for younger audiences)" := by
    intro s h1 h2
    unfold get_reading_ease_descriptor
    rw [if_neg (not_le.mpr h2), if_pos h1]
  have e3 : ∀ s : ℚ, 70 ≤ s → s < 80 → get_reading_ease_descriptor s =
      "Fairly Easy (Standard reading level, easily understood by teenagers)" := by
    intro s h1 h2
    unfold get_reading_ease_descriptor
    rw [if_neg (not_le.mpr (by linarith)), if_neg (not_le.mpr h2), if_pos h1]
  have e4 : ∀ s : ℚ, 60 ≤ s → s < 70 → get_reading_ease_descriptor s =
      "Standard (Plain English, suitable for most readers)" := by
    intro s h1 h2
    unfold get_reading_ease_descriptor
    rw [if_neg (not_le.mpr (by linarith)), if_neg (not_le.mpr (by linarith)),
      if_neg (not_le.mpr h2), if_pos h1]
  have e5 : ∀ s : ℚ, 50 ≤ s → s < 60 → get_reading_ease_descriptor s =
      "Fairly Difficult (Somewhat challenging, college-level text)" := by
    intro s h1 h2
    unfold get_reading_ease_descriptor
    rw [if_neg (not_le.mpr (by linarith)), if_neg (not_le.mpr (by linarith)),
      if_neg (not_le.mpr (by linarith)), if_neg (not_le.mpr h2), if_pos h1]
  have e6 : ∀ s : ℚ, 30 ≤ s → s < 50 → get_reading_ease_descriptor s =
      "Difficult (Best for academics and professionals, complex text)" := by
    intro s h1 h2
    unfold get_reading_ease_descriptor
    rw [if_neg (not_le.mpr (by linarith)), if_neg (not_le.mpr (by linarith)),
      if_neg (not_le.mpr (by linarith)), if_neg (not_le.mpr (by linarith)),
      if_neg (not_le.mpr h2), if_pos h1]
  have e7 : ∀ s : ℚ, s < 30 → get_reading_ease_descriptor s =
      "Very Difficult (Extremely complex, suitable for specialists)" := by
    intro s h1
    unfold get_reading_ease_descriptor
    rw [if_neg (not_le.mpr (by linarith)), if_neg (not_le.mpr (by linarith)),
      if_neg (not_le.mpr (by linarith)), if_neg (not_le.mpr (by linarith)),
      if_neg (not_le.mpr (by linarith)), if_neg (not_le.mpr h1)]
  have g1 : ∀ g : ℚ, g ≤ 5 → get_readability_descriptor g =
      "Very Easy (5th grade or below, easily understood by an 11-year-old)" := by
    intro g h
    unfold get_readability_descriptor
    rw [if_pos h]
  have g2 : ∀ g : ℚ, 5 < g → g ≤ 8 → get_readability_descriptor g =
      "Easy (6th-8th grade, fairly easy to read)" := by
    intro g h1 h2
    unfold get_readability_descriptor
    rw [if_neg (not_le.mpr h1), if_pos h2]
  have g3 : ∀ g : ℚ, 8 < g → g ≤ 10 → get_readability_descriptor g =
      "Standard (9th-10th grade, moderately challenging)" := by
    intro g h1 h2
    unfold get_readability_descriptor
    rw [if_neg (not_le.mpr (by linarith)), if_neg (not_le.mpr h1), if_pos h2]
  have g4 : ∀ g : ℚ, 10 < g → g ≤ 12 → get_readability_descriptor g =
      "Fairly Difficult (11th-12th grade, college level)" := by
    intro g h1 h2
    unfold get_readability_descriptor
    rw [if_neg (not_le.mpr (by linarith)), if_neg (not_le.mpr (by linarith)),
      if_neg (not_le.mpr h1), if_pos h2]
  have g5 : ∀ g : ℚ, 12 < g → g ≤ 15 → get_readability_descriptor g =
      "Difficult (College level, requires advanced reading skills)" := by
    intro g h1 h2
    unfold get_readability_descriptor
    rw [if_neg (not_le.mpr (by linarith)), if_neg (not_le.mpr (by linarith)),
      if_neg (not_le.mpr (by linarith)), if_neg (not_le.mpr h1), if_pos h2]
  have g6 : ∀ g : ℚ, 15 < g → get_readability_descriptor g =
      "Very Difficult (Postgraduate level, highly academic)" := by
    intro g h1
    unfold get_readability_descriptor
    rw [if_neg (not_le.mpr (by linarith)), if_neg (not_le.mpr (by linarith)),
      if_neg (not_le.mpr (by linarith)), if_neg (not_le.mpr (by linarith)),
      if_neg (not_le.mpr h1)]
  refine ⟨?_, ?_, by decide, by decide, e1, e2, e3, e4, e5, e6, e7,
    g1, g2, g3, g4, g5, g6, e1 90 le_rfl, e2 (899/10) (by norm_num) (by norm_num),
    g1 5 le_rfl, g2 (51/10) (by norm_num) (by norm_num)⟩
  · intro s
    unfold get_reading_ease_descriptor
    split_ifs <;> simp
  · intro g
    unfold get_readability_descriptor
    split_ifs <;> simp

/-- Witness for C1 at concrete scores, discharging the band hypotheses at
`s = 95` and `g = 3`. -/
theorem c1_descriptor_bands_witness :
    get_reading_ease_descriptor 95 =
      "Very Easy (Easily understood by an 11-year-old, simple language)"
    ∧ get_readability_descriptor 3 =
      "Very Easy (5th grade or below, easily understood by an 11-year-old)" :=
  ⟨c1_descriptor_bands.2.2.2.2.1 95 (by norm_num),
   c1_descriptor_bands.2.2.2.2.2.2.2.2.2.2.2.1 3 (by norm_num)⟩

/-- C4 counterexample: on `"The cat sat. The dog ran."` the letter count
computed by `calculate_text_metrics` is 18 (the input has 18 alphabetic
characters), not 17 as claimed. -/
theorem c4_letter_count_counterexample :
    (calculate_text_metrics sylOne scoreZero scoreZero
        "The cat sat. The dog ran.".toList).letterCount = 18 ∧
    ¬ (calculate_text_metrics sylOne scoreZero scoreZero
        "The cat sat. The dog ran.".toList).letterCount = 17 := by
  constructor <;> decide

/-- C4 (amended): for the input `"The cat sat. The dog ran."`, and any
instantiation of the external textstat primitives, `calculate_text_metrics`
returns `wordCount = 6`, `sentenceCount = 2`, `letterCount = 18` (not 17:
the input has 18 alphabetic characters), `uniqueWordCount = 5` (`the`
counted once despite appearing twice), and
`longestSentence = "The cat sat"`, the first of the two 3-word sentences. -/
theorem c4_worked_example (sylCore : List Char → Nat) (fkGrade freEase : List Char → ℚ) :
    (calculate_text_metrics sylCore fkGrade freEase
        "The cat sat. The dog ran.".toList).wordCount = 6
    ∧ (calculate_text_metrics sylCore fkGrade freEase
        "The cat sat. The dog ran.".toList).sentenceCount = 2
    ∧ (calculate_text_metrics sylCore fkGrade freEase
        "The cat sat. The dog ran.".toList).letterCount = 18
    ∧ (calculate_text_metrics sylCore fkGrade freEase
        "The cat sat. The dog ran.".toList).uniqueWordCount = 5
    ∧ (calculate_text_metrics sylCore fkGrade freEase
        "The cat sat. The dog ran.".toList).longestSentence = "The cat sat".toList :=
  ⟨rfl, rfl, rfl, rfl, rfl⟩

/-! ## Degenerate inputs: empty and whitespace-only text -/

lemma pyRound_one (n : Nat) : pyRound 1 n = 1 := by
  unfold pyRound
  rw [one_mul, show ((10 : ℚ) ^ n) = ((10 ^ n : ℤ) : ℚ) by push_cast; ring,
    roundHalfEven_intCast, div_self (by positivity)]

lemma pySentences_eq_nil_of_space {s : List Char} (h : ∀ c ∈ s, isPySpace c = true) :
    pySentences s = [] := by
  rw [List.eq_nil_iff_forall_not_mem]
  intro w hw
  rw [pySentences, List.mem_filter, List.mem_map] at hw
  obtain ⟨⟨piece, hpiece, hstrip⟩, hne⟩ := hw
  have hps : ∀ c ∈ piece, isPySpace c = true := by
    intro c hc
    exact h c (mem_of_mem_splitP hpiece hc).1
  rw [pyStrip_eq_nil_of_space hps] at hstrip
  rw [← hstrip] at hne
  simp at hne

lemma pyParagraphs_eq_nil_of_space {s : List Char} (h : ∀ c ∈ s, isPySpace c = true) :
    pyParagraphs s = [] := by
  rw [List.eq_nil_iff_forall_not_mem]
  intro w hw
  rw [pyParagraphs, List.mem_filter] at hw
  obtain ⟨hpiece, hne⟩ := hw
  have hps : ∀ c ∈ w, isPySpace c = true := by
    intro c hc
    exact h c (mem_of_mem_splitNlNl hpiece hc)
  rw [pyStrip_eq_nil_of_space hps] at hne
  simp at hne

lemma pyWords_eq_nil_of_space {s : List Char} (h : ∀ c ∈ s, isPySpace c = true) :
    pyWords s = [] := by
  rw [pyWords, pyStrip_eq_nil_of_space h]
  rfl

lemma letterCount_eq_zero_of_space {s : List Char} (h : ∀ c ∈ s, isPySpace c = true) :
    s.countP (fun c => c.isAlpha) = 0 := by
  rw [List.countP_eq_zero]
  intro c hc
  simp [isAlpha_of_space (h c hc)]

lemma cleanText_space {s : List Char} (h : ∀ c ∈ s, isPySpace c = true) :
    ∀ c ∈ cleanText s, isPySpace c = true := by
  intro c hc
  rw [cleanText, List.mem_filter, List.mem_map] at hc
  obtain ⟨⟨d, hd, hld⟩, _⟩ := hc
  rw [← hld, pyLowerChar_space (h d hd)]
  exact h d hd

lemma syllable_count_eq_zero_of_space (sylCore : List Char → Nat) {s : List Char}
    (h : ∀ c ∈ s, isPySpace c = true) : syllable_count sylCore s = 0 := by
  rw [syllable_count]
  split_ifs with h1
  · rfl
  · rw [splitWs_eq_nil_of_space (cleanText_space h)]
    rfl

unseal Rat.add Rat.mul Rat.inv Rat.sub in
lemma c2_counterexample_aux :
    (calculate_text_metrics sylOne scoreZero scoreZero []).avgSentencesPerParagraph = 1 ∧
    ¬ (calculate_text_metrics sylOne scoreZero scoreZero []).avgSentencesPerParagraph = 0 := by
  constructor <;> decide

/-- C2 counterexample: for the empty input, `avgSentencesPerParagraph`
(which is a per-paragraph average field) is `round(1/1, 1) = 1`, not `0`:
the claim that every per-paragraph average field is 0 fails. -/
theorem c2_empty_counterexample :
    (calculate_text_metrics sylOne scoreZero scoreZero []).avgSentencesPerParagraph = 1 ∧
    ¬ (calculate_text_metrics sylOne scoreZero scoreZero []).avgSentencesPerParagraph = 0 :=
  c2_counterexample_aux

/-- C2 (amended): for the empty input `""` and every instantiation of
the external textstat primitives, `calculate_text_metrics` returns
`wordCount = 0`, `sentenceCount = 1`, `paragraphCount = 1`, every per-word
and per-sentence average field equal to 0, every percentage field equal to
0, and of the per-paragraph average fields `avgWordsPerParagraph = 0`
while `avgSentencesPerParagraph = 1` (the code computes
`round(sentence_count / paragraph_count, 1) = round(1/1, 1)`); no division
by zero is performed. -/
theorem c2_empty_input (sylCore : List Char → Nat) (fkGrade freEase : List Char → ℚ) :
    (calculate_text_metrics sylCore fkGrade freEase []).wordCount = 0
    ∧ (calculate_text_metrics sylCore fkGrade freEase []).sentenceCount = 1
    ∧ (calculate_text_metrics sylCore fkGrade freEase []).paragraphCount = 1
    ∧ (calculate_text_metrics sylCore fkGrade freEase []).avgSyllablesPerWord = 0
    ∧ (calculate_text_metrics sylCore fkGrade freEase []).avgCharactersPerWord = 0
    ∧ (calculate_text_metrics sylCore fkGrade freEase []).averageWordLength = 0
    ∧ (calculate_text_metrics sylCore fkGrade freEase []).avgWordsPerSentence = 0
    ∧ (calculate_text_metrics sylCore fkGrade freEase []).avgWordsPerParagraph = 0
    ∧ (calculate_text_metrics sylCore fkGrade freEase []).avgSentencesPerParagraph = 1
    ∧ (calculate_text_metrics sylCore fkGrade freEase []).percWordsThreeSyllables = 0
    ∧ (calculate_text_metrics sylCore fkGrade freEase []).percWordsMoreThan4Syllables = 0
    ∧ (calculate_text_metrics sylCore fkGrade freEase []).percWordsMoreThan12Letters = 0 := by
  refine ⟨?_, ?_, ?_, ?_, ?_, ?_, ?_, ?_, ?_, ?_, ?_, ?_⟩ <;>
    simp [calculate_text_metrics, pyWords_nil, pySentences_nil, pyParagraphs_nil,
      pyRound_zero, pyRound_one]

unseal Rat.add Rat.mul Rat.inv Rat.sub in
lemma c7_counterexample_aux :
    (calculate_text_metrics sylOne scoreZero scoreZero " ".toList).sentenceCount = 1 ∧
    ¬ (calculate_text_metrics sylOne scoreZero scoreZero " ".toList).sentenceCount = 0 ∧
    (calculate_text_metrics sylOne scoreZero scoreZero " ".toList).avgSentencesPerParagraph = 1 := by
  refine ⟨?_, ?_, ?_⟩ <;> decide

/-- C7 counterexample: for the whitespace-only input `" "`, the
sentence count is 1, not 0 (and `avgSentencesPerParagraph` is 1, not 0), so
the claim that all counts and all averages are 0 fails. -/
theorem c7_whitespace_counterexample :
    (calculate_text_metrics sylOne scoreZero scoreZero " ".toList).sentenceCount = 1 ∧
    ¬ (calculate_text_metrics sylOne scoreZero scoreZero " ".toList).sentenceCount = 0 ∧
    (calculate_text_metrics sylOne scoreZero scoreZero " ".toList).avgSentencesPerParagraph = 1 :=
  c7_counterexample_aux

/-- C7 (amended): for every input that is empty or consists only of
whitespace, and every instantiation of the external textstat primitives,
`calculate_text_metrics` returns a record in which all counts are 0 except
`sentenceCount` and `paragraphCount`, which are floored to 1, and all
averages, percentages and reading times are 0 except
`avgSentencesPerParagraph`, which is `round(1/1, 1) = 1`; no failure is
raised (the function is total by construction). -/
theorem c7_whitespace_only (sylCore : List Char → Nat) (fkGrade freEase : List Char → ℚ)
    (text : List Char) (h : ∀ c ∈ text, isPySpace c = true) :
    (calculate_text_metrics sylCore fkGrade freEase text).letterCount = 0
    ∧ (calculate_text_metrics sylCore fkGrade freEase text).wordCount = 0
    ∧ (calculate_text_metrics sylCore fkGrade freEase text).uniqueWordCount = 0
    ∧ (calculate_text_metrics sylCore fkGrade freEase text).totalSyllables = 0
    ∧ (calculate_text_metrics sylCore fkGrade freEase text).wordsThreeSyllables = 0
    ∧ (calculate_text_metrics sylCore fkGrade freEase text).wordsMoreThan4Syllables = 0
    ∧ (calculate_text_metrics sylCore fkGrade freEase text).wordsMoreThan12Letters = 0
    ∧ (calculate_text_metrics sylCore fkGrade freEase text).sentenceCount = 1
    ∧ (calculate_text_metrics sylCore fkGrade freEase text).paragraphCount = 1
    ∧ (calculate_text_metrics sylCore fkGrade freEase text).avgSyllablesPerWord = 0
    ∧ (calculate_text_metrics sylCore fkGrade freEase text).avgCharactersPerWord = 0
    ∧ (calculate_text_metrics sylCore fkGrade freEase text).averageWordLength = 0
    ∧ (calculate_text_metrics sylCore fkGrade freEase text).avgWordsPerSentence = 0
    ∧ (calculate_text_metrics sylCore fkGrade freEase text).avgWordsPerParagraph = 0
    ∧ (calculate_text_metrics sylCore fkGrade freEase text).avgSentencesPerParagraph = 1
    ∧ (calculate_text_metrics sylCore fkGrade freEase text).avgSpeakingTime = 0
    ∧ (calculate_text_metrics sylCore fkGrade freEase text).avgReadingTime = 0
    ∧ (calculate_text_metrics sylCore fkGrade freEase text).avgWritingTime = 0
    ∧ (calculate_text_metrics sylCore fkGrade freEase text).readingTime = 0
    ∧ (calculate_text_metrics sylCore fkGrade freEase text).percWordsThreeSyllables = 0
    ∧ (calculate_text_metrics sylCore fkGrade freEase text).percWordsMoreThan4Syllables = 0
    ∧ (calculate_text_metrics sylCore fkGrade freEase text).percWordsMoreThan12Letters = 0 := by
  have hw := pyWords_eq_nil_of_space h
  have hs := pySentences_eq_nil_of_space h
  have hp := pyParagraphs_eq_nil_of_space h
  have hl := letterCount_eq_zero_of_space h
  have hsyl := syllable_count_eq_zero_of_space sylCore h
  refine ⟨?_, ?_, ?_, ?_, ?_, ?_, ?_, ?_, ?_, ?_, ?_, ?_, ?_, ?_, ?_, ?_, ?_, ?_, ?_,
    ?_, ?_, ?_⟩ <;>
    simp [calculate_text_metrics, hw, hs, hp, hl, hsyl, pyRound_zero, pyRound_one]

/-- Witness for C7: the whitespace-only hypothesis discharged at the
concrete input `" "`. -/
theorem c7_whitespace_only_witness :
    (calculate_text_metrics sylOne scoreZero scoreZero " ".toList).sentenceCount = 1 :=
  (c7_whitespace_only sylOne scoreZero scoreZero " ".toList (by decide)).2.2.2.2.2.2.2.1

/-! ## Word-frequency table lemmas -/

lemma bumpWord_keys (acc : List (List Char × Nat)) (w : List Char) :
    (bumpWord acc w).map Prod.fst =
      if w ∈ acc.map Prod.fst then acc.map Prod.fst else acc.map Prod.fst ++ [w] := by
  induction acc with
  | nil => simp [bumpWord]
  | cons p rest ih =>
    obtain ⟨x, n⟩ := p
    simp only [bumpWord]
    by_cases hx : x = w
    · subst hx
      simp
    · rw [if_neg hx]
      simp only [List.map_cons, List.mem_cons]
      rw [ih]
      by_cases hw : w ∈ rest.map Prod.fst
      · rw [if_pos hw, if_pos (Or.inr hw)]
      · rw [if_neg hw, if_neg ?_]
        · simp
        · rintro (h | h)
          · exact hx h.symm
          · exact hw h

lemma bumpWord_keys_nodup {acc : List (List Char × Nat)}
    (h : (acc.map Prod.fst).Nodup) (w : List Char) :
    ((bumpWord acc w).map Prod.fst).Nodup := by
  rw [bumpWord_keys]
  split_ifs with hw
  · exact h
  · refine List.Nodup.append h (List.nodup_singleton w) ?_
    intro x hx hx'
    rw [List.mem_singleton] at hx'
    subst hx'
    exact hw hx

lemma bumpWord_snd_pos {acc : List (List Char × Nat)} (hacc : ∀ p ∈ acc, 1 ≤ p.2)
    (w : List Char) : ∀ p ∈ bumpWord acc w, 1 ≤ p.2 := by
  induction acc with
  | nil =>
    intro p hp
    simp [bumpWord] at hp
    subst hp
    simp
  | cons q rest ih =>
    obtain ⟨x, n⟩ := q
    intro p hp
    simp only [bumpWord] at hp
    split_ifs at hp with hx
    · rcases List.mem_cons.mp hp with rfl | hp'
      · simp
      · exact hacc p (List.mem_cons_of_mem _ hp')
    · rcases List.mem_cons.mp hp with rfl | hp'
      · exact hacc (x, n) (List.mem_cons_self _ _)
      · exact ih (fun r hr => hacc r (List.mem_cons_of_mem _ hr)) p hp'

lemma bumpWord_snd_sum (acc : List (List Char × Nat)) (w : List Char) :
    ((bumpWord acc w).map Prod.snd).sum = (acc.map Prod.snd).sum + 1 := by
  induction acc with
  | nil => simp [bumpWord]
  | cons q rest ih =>
    obtain ⟨x, n⟩ := q
    simp only [bumpWord]
    split_ifs with hx
    · simp
      omega
    · simp only [List.map_cons, List.sum_cons, ih]
      omega

lemma buildFreq_keys_mem (ws : List (List Char)) (acc : List (List Char × Nat))
    (x : List Char) :
    x ∈ (buildFreq acc ws).map Prod.fst ↔ x ∈ acc.map Prod.fst ∨ x ∈ ws.map pyLower := by
  induction ws generalizing acc with
  | nil => simp [buildFreq]
  | cons w ws ih =>
    simp only [buildFreq, List.map_cons, List.mem_cons]
    rw [ih, bumpWord_keys]
    split_ifs with hw
    · constructor
      · rintro (h | h)
        · exact Or.inl h
        · exact Or.inr (Or.inr h)
      · rintro (h | h | h)
        · exact Or.inl h
        · subst h; exact Or.inl hw
        · exact Or.inr h
    · rw [List.mem_append, List.mem_singleton]
      tauto

lemma buildFreq_keys_nodup (ws : List (List Char)) {acc : List (List Char × Nat)}
    (h : (acc.map Prod.fst).Nodup) : ((buildFreq acc ws).map Prod.fst).Nodup := by
  induction ws generalizing acc with
  | nil => exact h
  | cons w ws ih => exact ih (bumpWord_keys_nodup h (pyLower w))

lemma buildFreq_snd_pos (ws : List (List Char)) {acc : List (List Char × Nat)}
    (h : ∀ p ∈ acc, 1 ≤ p.2) : ∀ p ∈ buildFreq acc ws, 1 ≤ p.2 := by
  induction ws generalizing acc with
  | nil => exact h
  | cons w ws ih => exact ih (bumpWord_snd_pos h (pyLower w))

lemma buildFreq_snd_sum (ws : List (List Char)) (acc : List (List Char × Nat)) :
    ((buildFreq acc ws).map Prod.snd).sum = (acc.map Prod.snd).sum + ws.length := by
  induction ws generalizing acc with
  | nil => simp [buildFreq]
  | cons w ws ih =>
    simp only [buildFreq, ih, bumpWord_snd_sum, List.length_cons]
    omega

/-- The number of entries of the frequency table is the number of distinct
case-folded words. -/
lemma word_frequency_length (ws : List (List Char)) :
    (word_frequency ws).length = ((ws.map pyLower).dedup).length := by
  have hnodup : ((word_frequency ws).map Prod.fst).Nodup :=
    buildFreq_keys_nodup ws (by simp)
  have hmem : ∀ x, x ∈ (word_frequency ws).map Prod.fst ↔ x ∈ ws.map pyLower := by
    intro x
    rw [word_frequency, buildFreq_keys_mem]
    simp
  have h1 : ((word_frequency ws).map Prod.fst).toFinset = (ws.map pyLower).toFinset := by
    ext x
    simp only [List.mem_toFinset]
    exact hmem x
  have h2 : (word_frequency ws).length = ((word_frequency ws).map Prod.fst).length := by
    simp
  rw [h2, ← List.toFinset_card_of_nodup hnodup, h1, List.card_toFinset]

/-! ## Stable-sort lemmas -/

lemma insertByCount_mem (p : List Char × Nat) (l : List (List Char × Nat))
    (x : List Char × Nat) : x ∈ insertByCount p l ↔ x = p ∨ x ∈ l := by
  induction l with
  | nil => simp [insertByCount]
  | cons q rest ih =>
    simp only [insertByCount]
    split_ifs
    · simp
    · simp only [List.mem_cons, ih]
      tauto

lemma insertByCount_perm (p : List Char × Nat) (l : List (List Char × Nat)) :
    List.Perm (insertByCount p l) (p :: l) := by
  induction l with
  | nil => simp [insertByCount]
  | cons q rest ih =>
    simp only [insertByCount]
    split_ifs
    · exact List.Perm.refl _
    · exact (ih.cons q).trans (List.Perm.swap p q rest)

lemma insertByCount_pairwise {l : List (List Char × Nat)}
    (h : l.Pairwise (fun a b => b.2 ≤ a.2)) (p : List Char × Nat) :
    (insertByCount p l).Pairwise (fun a b => b.2 ≤ a.2) := by
  induction l with
  | nil => simp [insertByCount]
  | cons q rest ih =>
    rw [List.pairwise_cons] at h
    obtain ⟨hq, hrest⟩ := h
    simp only [insertByCount]
    split_ifs with hlt
    · rw [List.pairwise_cons]
      refine ⟨?_, List.Pairwise.cons hq hrest⟩
      intro x hx
      rcases List.mem_cons.mp hx with rfl | hx'
      · exact le_of_lt hlt
      · exact le_trans (hq x hx') (le_of_lt hlt)
    · rw [List.pairwise_cons]
      refine ⟨?_, ih hrest⟩
      intro x hx
      rcases (insertByCount_mem p rest x).mp hx with rfl | hx'
      · exact le_of_not_lt hlt
      · exact hq x hx'

lemma insertByCount_filter {l : List (List Char × Nat)}
    (h : l.Pairwise (fun a b => b.2 ≤ a.2)) (p : List Char × Nat) (n : Nat) :
    (insertByCount p l).filter (fun q => q.2 == n) =
      l.filter (fun q => q.2 == n) ++ [p].filter (fun q => q.2 == n) := by
  induction l with
  | nil => simp [insertByCount]
  | cons q rest ih =>
    rw [List.pairwise_cons] at h
    obtain ⟨hq, hrest⟩ := h
    simp only [insertByCount]
    split_ifs with hlt
    · by_cases hpn : p.2 = n
      · have hqrest : (q :: rest).filter (fun r => r.2 == n) = [] := by
          rw [List.filter_eq_nil_iff]
          intro a ha
          rcases List.mem_cons.mp ha with rfl | ha'
          · simp only [beq_iff_eq]
            omega
          · have h2 := hq a ha'
            simp only [beq_iff_eq]
            omega
        rw [List.filter_cons_of_pos (by simp [hpn]), hqrest]
        simp [hpn]
      · rw [List.filter_cons_of_neg (by simp [hpn])]
        simp [hpn]
    · rw [List.filter_cons, List.filter_cons, ih hrest]
      by_cases hq2 : q.2 = n <;> simp [hq2]

lemma sortDescAux_pairwise {acc : List (List Char × Nat)}
    (h : acc.Pairwise (fun a b => b.2 ≤ a.2)) (l : List (List Char × Nat)) :
    (sortDescAux acc l).Pairwise (fun a b => b.2 ≤ a.2) := by
  induction l generalizing acc with
  | nil => exact h
  | cons p ps ih => exact ih (insertByCount_pairwise h p)

lemma sortDescAux_perm (l : List (List Char × Nat)) (acc : List (List Char × Nat)) :
    List.Perm (sortDescAux acc l) (acc ++ l) := by
  induction l generalizing acc with
  | nil => simp [sortDescAux]
  | cons p ps ih =>
    have h1 : sortDescAux acc (p :: ps) = sortDescAux (insertByCount p acc) ps := rfl
    rw [h1]
    refine ((ih _).trans ?_)
    refine (List.Perm.append_right ps (insertByCount_perm p acc)).trans ?_
    exact List.perm_middle.symm

lemma sortDescAux_filter {acc : List (List Char × Nat)}
    (h : acc.Pairwise (fun a b => b.2 ≤ a.2)) (l : List (List Char × Nat)) (n : Nat) :
    (sortDescAux acc l).filter (fun q => q.2 == n) =
      acc.filter (fun q => q.2 == n) ++ l.filter (fun q => q.2 == n) := by
  induction l generalizing acc with
  | nil => simp [sortDescAux]
  | cons p ps ih =>
    have h2 : sortDescAux acc (p :: ps) = sortDescAux (insertByCount p acc) ps := rfl
    rw [h2, ih (insertByCount_pairwise h p), insertByCount_filter h p n,
      List.append_assoc, List.filter_cons]
    by_cases hp : p.2 = n <;> simp [hp]

/-- The stable sort is a permutation of its input. -/
lemma sortByCountDesc_perm (l : List (List Char × Nat)) : List.Perm (sortByCountDesc l) l := by
  have := sortDescAux_perm l []
  simpa [sortByCountDesc] using this

/-- The stable sort produces non-increasing counts. -/
lemma sortByCountDesc_pairwise (l : List (List Char × Nat)) :
    (sortByCountDesc l).Pairwise (fun a b => b.2 ≤ a.2) :=
  sortDescAux_pairwise List.Pairwise.nil l

/-- Stability: entries of any fixed count appear in the sorted list exactly
in their input order. -/
lemma sortByCountDesc_filter (l : List (List Char × Nat)) (n : Nat) :
    (sortByCountDesc l).filter (fun q => q.2 == n) = l.filter (fun q => q.2 == n) := by
  have := sortDescAux_filter List.Pairwise.nil l n
  simpa [sortByCountDesc] using this

/-- C5: for every input, `topWords` is the first 5 entries of the
case-folded word-frequency table sorted by count descending by a stable
sort (the sort is a permutation of the table, its counts are
non-increasing, and entries of any fixed count keep their insertion order,
which is first-occurrence order); in particular, for the input
`"a a b b c c d d e e f"` `topWords` is `[(a,2),(b,2),(c,2),(d,2),(e,2)]`:
it has length 5, every entry has count 2, the entries appear in
first-occurrence order, and `f` (count 1) is excluded. -/
theorem c5_top_words_ranking :
    (∀ (sylCore : List Char → Nat) (fkGrade freEase : List Char → ℚ) (text : List Char),
      (calculate_text_metrics sylCore fkGrade freEase text).topWords
        = (sortByCountDesc (word_frequency (pyWords text))).take 5)
    ∧ (∀ l : List (List Char × Nat), List.Perm (sortByCountDesc l) l)
    ∧ (∀ l : List (List Char × Nat),
        (sortByCountDesc l).Pairwise (fun a b => b.2 ≤ a.2))
    ∧ (∀ (l : List (List Char × Nat)) (n : Nat),
        (sortByCountDesc l).filter (fun q => q.2 == n) = l.filter (fun q => q.2 == n))
    ∧ (calculate_text_metrics sylOne scoreZero scoreZero
        "a a b b c c d d e e f".toList).topWords
        = [("a".toList, 2), ("b".toList, 2), ("c".toList, 2), ("d".toList, 2), ("e".toList, 2)]
    ∧ (calculate_text_metrics sylOne scoreZero scoreZero
        "a a b b c c d d e e f".toList).topWords.length = 5
    ∧ (∀ p ∈ (calculate_text_metrics sylOne scoreZero scoreZero
        "a a b b c c d d e e f".toList).topWords, p.2 = 2)
    ∧ ("f".toList, 1) ∉ (calculate_text_metrics sylOne scoreZero scoreZero
        "a a b b c c d d e e f".toList).topWords :=
  ⟨fun _ _ _ _ => rfl, sortByCountDesc_perm, sortByCountDesc_pairwise,
   sortByCountDesc_filter, by decide, by decide, by decide, by decide⟩

/-- C10: for every input and every instantiation of the external
textstat primitives, `topWords` has length exactly `min 5 uniqueWordCount`;
every listed count is at least 1; counts are non-increasing along the
sequence; every listed word is the case-folding of some word occurring in
the input; and the sum of the listed counts is at most `wordCount`. -/
theorem c10_top_words_invariants (sylCore : List Char → Nat)
    (fkGrade freEase : List Char → ℚ) (text : List Char) :
    (calculate_text_metrics sylCore fkGrade freEase text).topWords.length
      = min 5 (calculate_text_metrics sylCore fkGrade freEase text).uniqueWordCount
    ∧ (∀ p ∈ (calculate_text_metrics sylCore fkGrade freEase text).topWords, 1 ≤ p.2)
    ∧ (calculate_text_metrics sylCore fkGrade freEase text).topWords.Pairwise
        (fun a b => b.2 ≤ a.2)
    ∧ (∀ p ∈ (calculate_text_metrics sylCore fkGrade freEase text).topWords,
        p.1 ∈ (pyWords text).map pyLower)
    ∧ ((calculate_text_metrics sylCore fkGrade freEase text).topWords.map Prod.snd).sum
      ≤ (calculate_text_metrics sylCore fkGrade freEase text).wordCount := by
  have hTW : (calculate_text_metrics sylCore fkGrade freEase text).topWords
      = (sortByCountDesc (word_frequency (pyWords text))).take 5 := rfl
  have hUW : (calculate_text_metrics sylCore fkGrade freEase text).uniqueWordCount
      = (((pyWords text).map pyLower).dedup).length := rfl
  have hWC : (calculate_text_metrics sylCore fkGrade freEase text).wordCount
      = (pyWords text).length := rfl
  have hperm := sortByCountDesc_perm (word_frequency (pyWords text))
  have hmem_sort : ∀ p, p ∈ sortByCountDesc (word_frequency (pyWords text)) →
      p ∈ word_frequency (pyWords text) := fun p hp => hperm.mem_iff.mp hp
  refine ⟨?_, ?_, ?_, ?_, ?_⟩
  · rw [hTW, hUW, List.length_take, hperm.length_eq, word_frequency_length]
  · intro p hp
    rw [hTW] at hp
    exact buildFreq_snd_pos (pyWords text) (by simp) p
      (hmem_sort p (List.mem_of_mem_take hp))
  · rw [hTW]
    exact (sortByCountDesc_pairwise _).sublist (List.take_sublist _ _)
  · intro p hp
    rw [hTW] at hp
    have hfreq := hmem_sort p (List.mem_of_mem_take hp)
    have hkey : p.1 ∈ (word_frequency (pyWords text)).map Prod.fst :=
      List.mem_map_of_mem Prod.fst hfreq
    rw [word_frequency, buildFreq_keys_mem] at hkey
    simpa using hkey
  · rw [hTW, hWC]
    have hsum : ((sortByCountDesc (word_frequency (pyWords text))).map Prod.snd).sum
        = ((word_frequency (pyWords text)).map Prod.snd).sum :=
      (hperm.map Prod.snd).sum_eq
    have htot : ((word_frequency (pyWords text)).map Prod.snd).sum
        = (pyWords text).length := by
      rw [word_frequency, buildFreq_snd_sum]
      simp
    calc (((sortByCountDesc (word_frequency (pyWords text))).take 5).map Prod.snd).sum
        = (((sortByCountDesc (word_frequency (pyWords text))).map Prod.snd).take 5).sum := by
          rw [List.map_take]
      _ ≤ ((sortByCountDesc (word_frequency (pyWords text))).map Prod.snd).sum := by
          conv_rhs =>
            rw [← List.take_append_drop 5
              ((sortByCountDesc (word_frequency (pyWords text))).map Prod.snd)]
          rw [List.sum_append]
          exact Nat.le_add_right _ _
      _ = (pyWords text).length := by rw [hsum, htot]

/-! ## Longest sentence: the fold keeps the first maximum -/

/-- Python's `max(first :: rest, key=numTokens)` splits its input into a
prefix of strictly smaller sentences, the first sentence attaining the
maximum, and a suffix of sentences no larger. -/
lemma maxSentence_spec (rest : List (List Char)) (first : List Char) :
    ∃ l1 l2, first :: rest = l1 ++ maxSentence first rest :: l2
      ∧ (∀ x ∈ l1, numTokens x < numTokens (maxSentence first rest))
      ∧ (∀ x ∈ l2, numTokens x ≤ numTokens (maxSentence first rest)) := by
  induction rest generalizing first with
  | nil => exact ⟨[], [], rfl, by simp, by simp⟩
  | cons x rest ih =>
    by_cases hx : numTokens first < numTokens x
    · have hres : maxSentence first (x :: rest) = maxSentence x rest := by
        unfold maxSentence
        rw [List.foldl_cons, if_pos hx]
      obtain ⟨m1, m2, hsplit, hm1, hm2⟩ := ih x
      have hxr : numTokens x ≤ numTokens (maxSentence x rest) := by
        cases m1 with
        | nil =>
          rw [List.nil_append] at hsplit
          injection hsplit with h1 h2
          rw [← h1]
        | cons a m1' =>
          rw [List.cons_append] at hsplit
          injection hsplit with h1 h2
          subst h1
          exact le_of_lt (hm1 x (List.mem_cons_self _ _))
      refine ⟨first :: m1, m2, ?_, ?_, ?_⟩
      · rw [hres, List.cons_append, ← hsplit]
      · intro y hy
        rw [hres]
        rcases List.mem_cons.mp hy with rfl | hy'
        · exact lt_of_lt_of_le hx hxr
        · exact hm1 y hy'
      · intro y hy
        rw [hres]
        exact hm2 y hy
    · have hres : maxSentence first (x :: rest) = maxSentence first rest := by
        unfold maxSentence
        rw [List.foldl_cons, if_neg hx]
      obtain ⟨m1, m2, hsplit, hm1, hm2⟩ := ih first
      cases m1 with
      | nil =>
        rw [List.nil_append] at hsplit
        injection hsplit with h1 h2
        refine ⟨[], x :: m2, ?_, by simp, ?_⟩
        · rw [hres, List.nil_append, ← h1, h2]
        · intro y hy
          rw [hres]
          rcases List.mem_cons.mp hy with rfl | hy'
          · rw [← h1]
            exact le_of_not_lt hx
          · exact hm2 y hy'
      | cons a m1' =>
        rw [List.cons_append] at hsplit
        injection hsplit with h1 h2
        subst h1
        refine ⟨first :: x :: m1', m2, ?_, ?_, ?_⟩
        · rw [hres, List.cons_append, List.cons_append, ← h2]
        · intro y hy
          rw [hres]
          have hfirst_lt : numTokens first < numTokens (maxSentence first rest) :=
            hm1 first (List.mem_cons_self _ _)
          rcases List.mem_cons.mp hy with rfl | hy'
          · exact hfirst_lt
          · rcases List.mem_cons.mp hy' with rfl | hy''
            · exact lt_of_le_of_lt (le_of_not_lt hx) hfirst_lt
            · exact hm1 y (List.mem_cons_of_mem _ hy'')
        · intro y hy
          rw [hres]
          exact hm2 y hy

lemma longestSentence_eq (sylCore : List Char → Nat) (fkGrade freEase : List Char → ℚ)
    (text : List Char) :
    (calculate_text_metrics sylCore fkGrade freEase text).longestSentence
      = match pySentences text with
        | [] => []
        | s :: rest => maxSentence s rest := rfl

/-- C6: the sentence list is obtained by splitting the raw text on the
literal character `.`, trimming each piece and discarding empty pieces;
`longestSentence` is the first such sentence with the maximum number of
whitespace-delimited tokens (every earlier sentence has strictly fewer
tokens, every later one no more); and when the sentence list is empty the
sentence count is 1 while `longestSentence` is the empty string. -/
theorem c6_sentences_and_longest (sylCore : List Char → Nat)
    (fkGrade freEase : List Char → ℚ) (text : List Char) :
    pySentences text
      = ((splitP (fun c => c == '.') text).map pyStrip).filter (fun s => !s.isEmpty)
    ∧ (calculate_text_metrics sylCore fkGrade freEase text).sentenceCount
      = (if (pySentences text).isEmpty then 1 else (pySentences text).length)
    ∧ ((pySentences text = []
          ∧ (calculate_text_metrics sylCore fkGrade freEase text).sentenceCount = 1
          ∧ (calculate_text_metrics sylCore fkGrade freEase text).longestSentence = [])
       ∨ (∃ l1 l2, pySentences text
            = l1 ++ (calculate_text_metrics sylCore fkGrade freEase text).longestSentence :: l2
          ∧ (∀ x ∈ l1, numTokens x <
              numTokens (calculate_text_metrics sylCore fkGrade freEase text).longestSentence)
          ∧ (∀ x ∈ l2, numTokens x ≤
              numTokens (calculate_text_metrics sylCore fkGrade freEase text).longestSentence))) := by
  refine ⟨rfl, rfl, ?_⟩
  rw [longestSentence_eq]
  cases hs : pySentences text with
  | nil =>
    left
    refine ⟨rfl, ?_, rfl⟩
    show (if (pySentences text).isEmpty then 1 else (pySentences text).length) = 1
    rw [hs]
    rfl
  | cons s rest =>
    right
    obtain ⟨l1, l2, hsplit, hm1, hm2⟩ := maxSentence_spec rest s
    exact ⟨l1, l2, hsplit, hm1, hm2⟩

/-! ## Percentage bounds -/

lemma perc_bounds_aux {k n : Nat} (hk : k ≤ n) (h0 : 0 < n) :
    0 ≤ pyRound ((k : ℚ) / (n : ℚ) * 100) 1 ∧ pyRound ((k : ℚ) / (n : ℚ) * 100) 1 ≤ 100 := by
  have hn : (0 : ℚ) < (n : ℚ) := by exact_mod_cast h0
  have hq0 : (0 : ℚ) ≤ (k : ℚ) / (n : ℚ) * 100 := by positivity
  have hq1 : (k : ℚ) / (n : ℚ) * 100 ≤ ((100 : ℕ) : ℚ) := by
    rw [div_mul_eq_mul_div, div_le_iff₀ hn]
    push_cast
    have : (k : ℚ) ≤ (n : ℚ) := by exact_mod_cast hk
    nlinarith
  refine ⟨pyRound_nonneg hq0 1, ?_⟩
  have := pyRound_le hq1 1
  exact_mod_cast this

lemma percWordsThreeSyllables_eq (sylCore : List Char → Nat)
    (fkGrade freEase : List Char → ℚ) (text : List Char) :
    (calculate_text_metrics sylCore fkGrade freEase text).percWordsThreeSyllables
      = if 0 < (pyWords text).length then
          pyRound ((((pyWords text).countP
              (fun w => syllable_count sylCore w == 3) : ℚ)) / ((pyWords text).length : ℚ) * 100) 1
        else 0 := rfl

lemma percWordsMoreThan4Syllables_eq (sylCore : List Char → Nat)
    (fkGrade freEase : List Char → ℚ) (text : List Char) :
    (calculate_text_metrics sylCore fkGrade freEase text).percWordsMoreThan4Syllables
      = if 0 < (pyWords text).length then
          pyRound ((((pyWords text).countP
              (fun w => 4 < syllable_count sylCore w) : ℚ)) / ((pyWords text).length : ℚ) * 100) 1
        else 0 := rfl

lemma percWordsMoreThan12Letters_eq (sylCore : List Char → Nat)
    (fkGrade freEase : List Char → ℚ) (text : List Char) :
    (calculate_text_metrics sylCore fkGrade freEase text).percWordsMoreThan12Letters
      = if 0 < (pyWords text).length then
          pyRound ((((pyWords text).countP
              (fun w => 12 < w.length) : ℚ)) / ((pyWords text).length : ℚ) * 100) 1
        else 0 := rfl

/-- C9: every percentage field of the result lies in `[0, 100]`,
because each classified word subset is a subset of the tokenized word
list. -/
theorem c9_percentages_in_range (sylCore : List Char → Nat)
    (fkGrade freEase : List Char → ℚ) (text : List Char) :
    (0 ≤ (calculate_text_metrics sylCore fkGrade freEase text).percWordsThreeSyllables
      ∧ (calculate_text_metrics sylCore fkGrade freEase text).percWordsThreeSyllables ≤ 100)
    ∧ (0 ≤ (calculate_text_metrics sylCore fkGrade freEase text).percWordsMoreThan4Syllables
      ∧ (calculate_text_metrics sylCore fkGrade freEase text).percWordsMoreThan4Syllables ≤ 100)
    ∧ (0 ≤ (calculate_text_metrics sylCore fkGrade freEase text).percWordsMoreThan12Letters
      ∧ (calculate_text_metrics sylCore fkGrade freEase text).percWordsMoreThan12Letters
        ≤ 100) := by
  refine ⟨?_, ?_, ?_⟩
  · rw [percWordsThreeSyllables_eq]
    split_ifs with h
    · exact perc_bounds_aux (List.countP_le_length _) h
    · norm_num
  · rw [percWordsMoreThan4Syllables_eq]
    split_ifs with h
    · exact perc_bounds_aux (List.countP_le_length _) h
    · norm_num
  · rw [percWordsMoreThan12Letters_eq]
    split_ifs with h
    · exact perc_bounds_aux (List.countP_le_length _) h
    · norm_num

/-- C3: `calculate_text_metrics` is a total function of its input (it
is defined for every `List Char`, so in the embedding "returns a complete
record without raising any error" holds by construction), and every
numeric field of the result is non-negative (and, being a rational number,
finite), except `fleschKincaid` and `readingEase`, which are whatever the
external score functions return and may be negative or exceed 100.  The
count fields are stated as casts; they are natural numbers by type. -/
theorem c3_totality_nonneg (sylCore : List Char → Nat)
    (fkGrade freEase : List Char → ℚ) (text : List Char) :
    (0 : ℚ) ≤ ((calculate_text_metrics sylCore fkGrade freEase text).letterCount : ℚ)
    ∧ (0 : ℚ) ≤ ((calculate_text_metrics sylCore fkGrade freEase text).sentenceCount : ℚ)
    ∧ (0 : ℚ) ≤ ((calculate_text_metrics sylCore fkGrade freEase text).wordCount : ℚ)
    ∧ (0 : ℚ) ≤ ((calculate_text_metrics sylCore fkGrade freEase text).uniqueWordCount : ℚ)
    ∧ (0 : ℚ) ≤ ((calculate_text_metrics sylCore fkGrade freEase text).totalSyllables : ℚ)
    ∧ (0 : ℚ) ≤ ((calculate_text_metrics sylCore fkGrade freEase text).wordsThreeSyllables : ℚ)
    ∧ (0 : ℚ) ≤ ((calculate_text_metrics sylCore fkGrade freEase text).paragraphCount : ℚ)
    ∧ (0 : ℚ) ≤
        ((calculate_text_metrics sylCore fkGrade freEase text).wordsMoreThan4Syllables : ℚ)
    ∧ (0 : ℚ) ≤
        ((calculate_text_metrics sylCore fkGrade freEase text).wordsMoreThan12Letters : ℚ)
    ∧ 0 ≤ (calculate_text_metrics sylCore fkGrade freEase text).avgSyllablesPerWord
    ∧ 0 ≤ (calculate_text_metrics sylCore fkGrade freEase text).percWordsThreeSyllables
    ∧ 0 ≤ (calculate_text_metrics sylCore fkGrade freEase text).avgSpeakingTime
    ∧ 0 ≤ (calculate_text_metrics sylCore fkGrade freEase text).avgReadingTime
    ∧ 0 ≤ (calculate_text_metrics sylCore fkGrade freEase text).avgWritingTime
    ∧ 0 ≤ (calculate_text_metrics sylCore fkGrade freEase text).avgWordsPerSentence
    ∧ 0 ≤ (calculate_text_metrics sylCore fkGrade freEase text).avgWordsPerParagraph
    ∧ 0 ≤ (calculate_text_metrics sylCore fkGrade freEase text).avgSentencesPerParagraph
    ∧ 0 ≤ (calculate_text_metrics sylCore fkGrade freEase text).avgCharactersPerWord
    ∧ 0 ≤ (calculate_text_metrics sylCore fkGrade freEase text).percWordsMoreThan4Syllables
    ∧ 0 ≤ (calculate_text_metrics sylCore fkGrade freEase text).percWordsMoreThan12Letters
    ∧ 0 ≤ (calculate_text_metrics sylCore fkGrade freEase text).readingTime
    ∧ 0 ≤ (calculate_text_metrics sylCore fkGrade freEase text).averageWordLength := by
  refine ⟨?_, ?_, ?_, ?_, ?_, ?_, ?_, ?_, ?_, ?_, ?_, ?_, ?_, ?_, ?_, ?_, ?_, ?_,
    ?_, ?_, ?_, ?_⟩ <;>
    (simp only [calculate_text_metrics]; try split_ifs) <;>
    first
      | positivity
      | exact pyRound_nonneg (by positivity) _

/-! ## Syllable counting: whole-text count equals the sum over word tokens -/

lemma cleanText_cons (c : Char) (cs : List Char) :
    cleanText (c :: cs)
      = (if keepChar (pyLowerChar c) then [pyLowerChar c] else []) ++ cleanText cs := by
  rw [cleanText, List.map_cons, List.filter_cons]
  split_ifs <;> simp [cleanText]

lemma isPySpace_pyLowerChar (c : Char) : isPySpace (pyLowerChar c) = isPySpace c := by
  unfold pyLowerChar
  split <;> rfl

lemma splitP_cleanText (t : List Char) :
    splitP isPySpace (cleanText t) = (splitP isPySpace t).map cleanText := by
  induction t with
  | nil => simp [splitP, cleanText]
  | cons c cs ih =>
    rw [cleanText_cons]
    by_cases hc : isPySpace c
    · have h1 : pyLowerChar c = c := pyLowerChar_space hc
      have h2 : keepChar (pyLowerChar c) = true := by
        rw [h1]
        exact keepChar_space hc
      rw [if_pos h2, h1, List.singleton_append, splitP, if_pos hc, ih,
        splitP, if_pos hc, List.map_cons]
      rfl
    · have hcb : isPySpace c = false := Bool.eq_false_iff.mpr hc
      obtain ⟨h0, t0, hht, hcons⟩ := consHead_of_ne_nil c (splitP_ne_nil isPySpace cs)
      by_cases hk : keepChar (pyLowerChar c)
      · have hcl : isPySpace (pyLowerChar c) = false := by
          rw [isPySpace_pyLowerChar, hcb]
        rw [if_pos hk, List.singleton_append, splitP,
          if_neg (by rw [hcl]; exact Bool.false_ne_true), ih,
          splitP, if_neg hc, hht, List.map_cons]
        simp [consHead, cleanText_cons, hk]
      · rw [if_neg hk, List.nil_append, ih, splitP, if_neg hc, hht]
        simp [consHead, cleanText_cons, hk]

lemma filter_map_cleanText (L : List (List Char)) :
    ((L.filter (fun w => !w.isEmpty)).map cleanText).filter (fun w => !w.isEmpty)
      = (L.map cleanText).filter (fun w => !w.isEmpty) := by
  induction L with
  | nil => rfl
  | cons w L ih =>
    by_cases hw : w.isEmpty
    · have hnil : w = [] := by
        cases w
        · rfl
        · simp at hw
      subst hnil
      rw [List.map_cons, List.filter_cons, List.filter_cons]
      norm_num [cleanText, ih]
    · rw [List.filter_cons, if_pos (by simp [hw]), List.map_cons, List.map_cons,
        List.filter_cons, List.filter_cons, ih]

/-- Splitting the punctuation-stripped lower-cased text on whitespace gives
exactly the cleanings of the original whitespace tokens (empty cleanings
dropped). -/
lemma splitWs_cleanText (t : List Char) :
    splitWs (cleanText t) = ((splitWs t).map cleanText).filter (fun w => !w.isEmpty) := by
  rw [splitWs, splitP_cleanText, splitWs, filter_map_cleanText]

lemma splitP_no_sep {p : Char → Bool} {u : List Char} (h : ∀ c ∈ u, p c = false) :
    splitP p u = [u] := by
  induction u with
  | nil => rfl
  | cons c cs ih =>
    rw [splitP, if_neg (by rw [h c (List.mem_cons_self _ _)]; exact Bool.false_ne_true),
      ih (fun d hd => h d (List.mem_cons_of_mem _ hd))]
    rfl

lemma cleanText_no_space {w : List Char} (h : ∀ c ∈ w, isPySpace c = false) :
    ∀ c ∈ cleanText w, isPySpace c = false := by
  intro c hc
  rw [cleanText, List.mem_filter, List.mem_map] at hc
  obtain ⟨⟨d, hd, hld⟩, _⟩ := hc
  rw [← hld, isPySpace_pyLowerChar]
  exact h d hd

/-- Evaluating `syllable_count` on a single whitespace-free token. -/
lemma syllable_count_token (sylCore : List Char → Nat) {w : List Char}
    (h : ∀ c ∈ w, isPySpace c = false) :
    syllable_count sylCore w
      = if (cleanText w).isEmpty then 0 else max 1 (sylCore (cleanText w)) := by
  rw [syllable_count]
  split_ifs with he
  · rfl
  · have h2 : splitWs (cleanText w) = [cleanText w] := by
      rw [splitWs, splitP_no_sep (cleanText_no_space h),
        List.filter_cons, if_pos (by simp [he])]
      rfl
    rw [h2]
    simp

lemma sum_syllables_over_tokens (sylCore : List Char → Nat) (W : List (List Char)) :
    (∀ w ∈ W, ∀ c ∈ w, isPySpace c = false) →
    (((W.map cleanText).filter (fun w => !w.isEmpty)).map
        (fun w => max 1 (sylCore w))).sum
      = (W.map (fun w => syllable_count sylCore w)).sum := by
  induction W with
  | nil => intro _; rfl
  | cons w W ih =>
    intro hW
    have hw := hW w (List.mem_cons_self _ _)
    have hW' : ∀ x ∈ W, ∀ c ∈ x, isPySpace c = false :=
      fun x hx => hW x (List.mem_cons_of_mem _ hx)
    rw [List.map_cons, List.filter_cons, List.map_cons, List.sum_cons,
      syllable_count_token sylCore hw]
    by_cases he : (cleanText w).isEmpty
    · rw [if_neg (by simp [he]), if_pos he, ih hW']
      omega
    · rw [if_pos (by simp [he]), if_neg he, List.map_cons, List.sum_cons, ih hW']

lemma splitWs_tokens_no_space {t : List Char} :
    ∀ w ∈ splitWs t, ∀ c ∈ w, isPySpace c = false := by
  intro w hw c hc
  rw [splitWs, List.mem_filter] at hw
  exact (mem_of_mem_splitP hw.1 hc).2

lemma splitWs_cons_space {c : Char} (cs : List Char) (h : isPySpace c = true) :
    splitWs (c :: cs) = splitWs cs := by
  rw [splitWs, splitP, if_pos h, List.filter_cons, if_neg (by simp)]
  rfl

lemma splitWs_dropWhile (t : List Char) :
    splitWs (t.dropWhile isPySpace) = splitWs t := by
  induction t with
  | nil => rfl
  | cons c cs ih =>
    by_cases hc : isPySpace c
    · rw [List.dropWhile_cons_of_pos hc, ih, splitWs_cons_space cs hc]
    · rw [List.dropWhile_cons_of_neg hc]

lemma splitP_all_space {s : List Char} (h : ∀ c ∈ s, isPySpace c = true) :
    splitP isPySpace s = List.replicate (s.length + 1) [] := by
  induction s with
  | nil => rfl
  | cons c cs ih =>
    rw [splitP, if_pos (h c (List.mem_cons_self _ _)),
      ih (fun d hd => h d (List.mem_cons_of_mem _ hd))]
    rfl

lemma splitP_append_space (u : List Char) {s : List Char}
    (h : ∀ c ∈ s, isPySpace c = true) :
    splitP isPySpace (u ++ s) = splitP isPySpace u ++ List.replicate s.length [] := by
  induction u with
  | nil =>
    rw [List.nil_append, splitP_all_space h]
    rfl
  | cons c cs ih =>
    rw [List.cons_append, splitP, splitP]
    by_cases hc : isPySpace c
    · rw [if_pos hc, if_pos hc, ih, List.cons_append]
    · rw [if_neg hc, if_neg hc, ih]
      obtain ⟨h0, t0, hht, hcons⟩ := consHead_of_ne_nil c (splitP_ne_nil isPySpace cs)
      rw [hht, List.cons_append]
      rfl

lemma splitWs_append_space (u : List Char) {s : List Char}
    (h : ∀ c ∈ s, isPySpace c = true) :
    splitWs (u ++ s) = splitWs u := by
  rw [splitWs, splitWs, splitP_append_space u h, List.filter_append]
  have hrep : (List.replicate s.length ([] : List Char)).filter (fun w => !w.isEmpty)
      = [] := by
    rw [List.filter_eq_nil_iff]
    intro a ha
    rw [List.eq_of_mem_replicate ha]
    simp
  rw [hrep, List.append_nil]

/-- Stripping leading and trailing whitespace does not change the
whitespace tokenization. -/
lemma splitWs_pyStrip (t : List Char) : splitWs (pyStrip t) = splitWs t := by
  have hdecomp : t.dropWhile isPySpace
      = pyStrip t ++ ((t.dropWhile isPySpace).reverse.takeWhile isPySpace).reverse := by
    have h1 : (t.dropWhile isPySpace).reverse.takeWhile isPySpace
        ++ (t.dropWhile isPySpace).reverse.dropWhile isPySpace
        = (t.dropWhile isPySpace).reverse := List.takeWhile_append_dropWhile _ _
    calc t.dropWhile isPySpace
        = (t.dropWhile isPySpace).reverse.reverse := (List.reverse_reverse _).symm
      _ = ((t.dropWhile isPySpace).reverse.takeWhile isPySpace
            ++ (t.dropWhile isPySpace).reverse.dropWhile isPySpace).reverse := by rw [h1]
      _ = ((t.dropWhile isPySpace).reverse.dropWhile isPySpace).reverse
            ++ ((t.dropWhile isPySpace).reverse.takeWhile isPySpace).reverse := by
          rw [List.reverse_append]
      _ = pyStrip t ++ ((t.dropWhile isPySpace).reverse.takeWhile isPySpace).reverse := rfl
  have htrail : ∀ c ∈ ((t.dropWhile isPySpace).reverse.takeWhile isPySpace).reverse,
      isPySpace c = true := by
    intro c hc
    rw [List.mem_reverse] at hc
    exact List.mem_takeWhile_imp hc
  rw [← splitWs_dropWhile t]
  conv_rhs => rw [hdecomp]
  exact (splitWs_append_space _ htrail).symm

lemma syllable_count_eq_sum (sylCore : List Char → Nat) (s : List Char) :
    syllable_count sylCore s
      = ((splitWs (cleanText s)).map (fun w => max 1 (sylCore w))).sum := by
  rw [syllable_count]
  split_ifs with he
  · have hnil : cleanText s = [] := by
      cases hcn : cleanText s
      · rfl
      · rw [hcn] at he
        simp at he
    rw [hnil]
    rfl
  · rfl

/-- C8: for every input and every instantiation of the textstat
primitives, the `totalSyllables` field (computed by the code as
`syllable_count(text)` on the whole text) equals the sum over all
whitespace-delimited word tokens of the syllable count of each individual
word.  This holds because `textstat`'s normalisation (lower-casing and
deleting `[^\w\s]` characters) maps whitespace to whitespace, so it
commutes with whitespace tokenization. -/
theorem c8_total_syllables_sum (sylCore : List Char → Nat)
    (fkGrade freEase : List Char → ℚ) (text : List Char) :
    (calculate_text_metrics sylCore fkGrade freEase text).totalSyllables
      = ((pyWords text).map (fun w => syllable_count sylCore w)).sum := by
  have h1 : (calculate_text_metrics sylCore fkGrade freEase text).totalSyllables
      = syllable_count sylCore text := rfl
  rw [h1, syllable_count_eq_sum, splitWs_cleanText, pyWords, splitWs_pyStrip]
  exact sum_syllables_over_tokens sylCore (splitWs text) splitWs_tokens_no_space
